/-
Verification of the celestial-TSP planner (`src/celestsp/main.py`).

The development shallowly embeds the core of the program:
  * the horizon-crossing estimator inside `find_first_body` (time grid of
    1000 samples over 24 hours, first altitude <= 0),
  * the start selector (strict `<` running minimum over times-to-set,
    sentinel -1),
  * the distance-graph builder `make_graph` (edges only for i < j),
  * the networkx `greedy_tsp` nearest-neighbour cycle construction,
  * the reporting loop `show_results` (skips the final row), and
  * the driver `run` (override lookup by exact name, branch structure).

The astropy coordinate transform is external to the program; a body is
therefore represented by its altitude and azimuth as functions of the
elapsed time in hours (`Body.altAt`, `Body.azAt`), exactly the interface
the program consumes.  Machine floats are modelled by `ℚ` (the comparisons
and grid arithmetic of the program are exact), `np.inf` by `Option ℚ` with
`none` standing for infinity, and fatal errors (`sys.exit`, uncaught
exceptions) by `Except`.
-/
import Mathlib

namespace Celestsp

/-- A celestial body as the planner sees it: its name (column `Name` of the
dataframe) and the altitude/azimuth delivered by the external coordinate
transform, as functions of the elapsed time in hours from the observation
instant (elapsed time 0 is the observation instant itself). -/
structure Body where
  name : String
  altAt : ℚ → ℚ
  azAt : ℚ → ℚ

/-- The time grid of `find_first_body`: `np.linspace(0, 24, 1000)`,
i.e. the 1000 instants `24 * k / 999` hours for `k = 0, …, 999`. -/
def timeToSetSamples : List ℚ :=
  (List.range 1000).map (fun k : ℕ => 24 * (k : ℚ) / 999)

/-- The horizon-crossing estimator of `find_first_body` for one body
(`main.py` lines 127-151): if the current altitude is positive, scan the
future altitudes on the time grid for the first sample that is `≤ 0` and
return its elapsed time in hours; otherwise (currently below the horizon,
or never setting inside the window) the time to set is infinite (`none`,
modelling `np.inf`). -/
def body_time_to_set (altAt : ℚ → ℚ) : Option ℚ :=
  if 0 < altAt 0 then
    timeToSetSamples.find? (fun t => decide (altAt t ≤ 0))
  else
    none

/-- `CelestialTSP.is_observable` (`main.py` lines 160-163): the altitude is
strictly above `min_altitude` (the program always passes the default 0). -/
def is_observable (altDeg : ℚ) (min_altitude : ℚ) : Bool :=
  decide (min_altitude < altDeg)

/-- The comparison `t_set < shortest_time` of `find_first_body`, where
`shortest_time` starts as `np.inf` (modelled by `none`). -/
def ltInf (t : ℚ) : Option ℚ → Bool
  | none => true
  | some s => decide (t < s)

/-- The values produced by `find_first_body`: the four columns it appends
to the dataframe plus the returned row index (`-1` when no body has a
finite time to set). -/
structure FFBResult where
  altitudes : List ℚ
  azimuths : List ℚ
  times_to_set : List (Option ℚ)
  observables : List Bool
  first_index : Int

/-- The loop of `find_first_body` (`main.py` lines 118-151): per body it
records altitude, azimuth, observability and time-to-set, and keeps the
index of the body with the strictly smallest finite time-to-set seen so
far.  `i` is the dataframe index of the first body of the remaining list,
`shortest` the running minimum (`none` = `np.inf`), `first` the current
candidate index. -/
def find_first_body_aux : List Body → ℕ → Option ℚ → Int → FFBResult
  | [], _, _, first => ⟨[], [], [], [], first⟩
  | b :: rest, i, shortest, first =>
    let alt := b.altAt 0
    let az := b.azAt 0
    let obs := is_observable alt 0
    let t? := body_time_to_set b.altAt
    let next :=
      match t? with
      | some t => if ltInf t shortest then (some t, (i : Int)) else (shortest, first)
      | none => (shortest, first)
    let r := find_first_body_aux rest (i + 1) next.1 next.2
    ⟨alt :: r.altitudes, az :: r.azimuths, t? :: r.times_to_set, obs :: r.observables,
      r.first_index⟩

/-- `CelestialTSP.find_first_body` (`main.py` lines 99-158): scan all
bodies in dataframe order starting from index 0, with
`shortest_time = np.inf` and `first_index = -1`. -/
def find_first_body (bodies : List Body) : FFBResult :=
  find_first_body_aux bodies 0 none (-1)

/-- Pure restatement of the selection state machine of `find_first_body`,
acting on the list of times-to-set only; used to factor the proofs. -/
def sel_loop : List (Option ℚ) → ℕ → Option ℚ → Int → Option ℚ × Int
  | [], _, s, f => (s, f)
  | t? :: rest, i, s, f =>
    match t? with
    | some t => if ltInf t s then sel_loop rest (i + 1) (some t) (i : Int) else sel_loop rest (i + 1) s f
    | none => sel_loop rest (i + 1) s f

/-- A networkx undirected graph as the program builds it: node list, node
positions (the `pos` attribute) and the list of inserted edges with their
weights. -/
structure NXGraph (α : Type) where
  nodes : List ℕ
  pos : List (ℚ × ℚ)
  edges : List (ℕ × ℕ × α)

/-- Whether an inserted edge connects `a` and `b` (networkx adjacency is
symmetric: `add_edge(i, j)` makes `j` a neighbour of `i` and vice versa). -/
def edgeMatches (a b : ℕ) (e : ℕ × ℕ × α) : Bool :=
  (e.1 == a && e.2.1 == b) || (e.1 == b && e.2.1 == a)

/-- Weight of the edge between `a` and `b`, `none` when they are not
adjacent (a `KeyError` in the program). -/
def adjW (G : NXGraph α) (a b : ℕ) : Option α :=
  (G.edges.find? (edgeMatches a b)).map (fun e => e.2.2)

/-- `CelestialTSP.make_graph` (`main.py` lines 165-179): one node per
coordinate row, and an edge `(i, j)` with weight `dist_matrix i j` for
every `i < j < n` (upper triangle only, the graph being undirected). -/
def make_graph (coordinates : List (ℚ × ℚ)) (dist_matrix : ℕ → ℕ → α) : NXGraph α :=
  let n := coordinates.length
  ⟨List.range n, coordinates,
    (List.range n).flatMap (fun i =>
      ((List.range n).filter (fun j => decide (i < j))).map (fun j => (i, j, dist_matrix i j)))⟩

/-- The completeness check at the top of `networkx.approximation.greedy_tsp`:
every two distinct nodes must be adjacent. -/
def isComplete (G : NXGraph α) : Bool :=
  G.nodes.all (fun a => G.nodes.all (fun b => a == b || (adjW G a b).isSome))

/-- Python's `min(nodeset, key=keyf)` over a set of small naturals iterated
in ascending order: the first element attaining the minimal key (ties keep
the earlier element, since `min` replaces the best candidate only on a
strictly smaller key).  `none` models the `KeyError`/`ValueError` raised
when a key is missing or the set is empty. -/
def selectMin [LinearOrder α] (keyf : ℕ → Option α) : List ℕ → Option (ℕ × α)
  | [] => none
  | x :: xs =>
    match keyf x with
    | none => none
    | some kx =>
      match xs with
      | [] => some (x, kx)
      | y :: ys =>
        match selectMin keyf (y :: ys) with
        | none => none
        | some r => some (if kx ≤ r.2 then (x, kx) else r)

/-- The `while nodeset:` loop of `greedy_tsp`: repeatedly move to the
unvisited node of minimal edge weight from the current node.  The fuel is
the size of `nodeset` (the loop removes one node per iteration). -/
def greedyLoop [LinearOrder α] (G : NXGraph α) : ℕ → ℕ → List ℕ → Option (List ℕ)
  | _, _, [] => some []
  | 0, _, _ :: _ => none
  | fuel + 1, cur, m :: ms =>
    match selectMin (fun b => adjW G cur b) (m :: ms) with
    | none => none
    | some r =>
      match greedyLoop G fuel r.1 ((m :: ms).erase r.1) with
      | none => none
      | some rest => some (r.1 :: rest)

/-- `networkx.approximation.greedy_tsp(G, source)`: after the completeness
check, the two-node special case returns `[source, neighbor, source]`;
otherwise the nearest-neighbour loop builds the visiting order and the
start node is appended again, producing a closed cycle
`source :: visited ++ [source]`. -/
def greedy_tsp [LinearOrder α] (G : NXGraph α) (source : ℕ) : Option (List ℕ) :=
  if isComplete G = true then
    if source ∈ G.nodes then
      if G.nodes.length = 2 then
        (G.nodes.filter (fun b => (adjW G source b).isSome)).head?.map
          (fun neighbor => [source, neighbor, source])
      else
        let nodeset := G.nodes.filter (fun m => decide (m ≠ source))
        (greedyLoop G nodeset.length source nodeset).map
          (fun visited => source :: (visited ++ [source]))
    else none
  else none

/-- One iteration framework of `CelestialTSP.show_results` (`main.py` lines
181-197): the loop receives the enumerated rows of the reordered dataframe
and skips exactly the row whose index `i` satisfies `i + 1 = len(df)`. -/
def shown_kept (total : ℕ) : List (ℕ × β) → List β
  | [] => []
  | (i, r) :: rest => if i + 1 = total then shown_kept total rest else r :: shown_kept total rest

/-- `CelestialTSP.show_results`: iterate over the rows with their
(reset) dataframe indices and print every row except the one at index
`len(df) - 1`; the result is the list of printed rows. -/
def show_results (rows : List β) : List β :=
  shown_kept rows.length rows.enum

/-- The pandas lookup `self.df.index[self.df["Name"] == first_body]`
(`main.py` line 42): the dataframe indices of the rows whose `Name` equals
the override name (exact string equality). -/
def matching_indices (names : List String) (target : String) : List ℕ :=
  ((names.enum).filter (fun p => p.2 == target)).map (fun p => p.1)

/-- The dataframe of the run: the `Name` column always exists (built by
`read_celestial_names`), while the four observation columns exist only
after `find_first_body` has run (`none` models an absent column). -/
structure DF where
  names : List String
  altitudeCol : Option (List ℚ)
  azimuthCol : Option (List ℚ)
  timeToSetCol : Option (List (Option ℚ))
  observableCol : Option (List Bool)

/-- Fatal terminations of `run`: the `sys.exit(1)` on an unresolved
override name, a pandas `KeyError` on a missing dataframe column, and a
networkx exception inside `greedy_tsp`. -/
inductive RunError where
  | notFound (name : String)
  | missingColumn (col : String)
  | nxError
deriving DecidableEq

/-- Successful outcomes of `run`: either a planned tour (the networkx
cycle `tsp_path` plus the names printed by `show_results`), or the
"could not find" message when the start index is the sentinel -1. -/
inductive RunOutcome where
  | planned (tsp_path : List ℕ) (shown : List String)
  | noStart
deriving DecidableEq

/-- Step 2 of `run` (`main.py` lines 40-48): resolve the start index.
With a non-empty `first_body` the name is looked up by exact string
equality (`sys.exit(1)` when absent) and the observation columns are NOT
computed; otherwise `find_first_body` runs and fills the four columns. -/
def run_step2 (bodies : List Body) (first_body : String) : Except RunError (Int × DF) :=
  if first_body ≠ "" then
    match matching_indices (bodies.map Body.name) first_body with
    | [] => Except.error (RunError.notFound first_body)
    | i :: _ => Except.ok ((i : Int), ⟨bodies.map Body.name, none, none, none, none⟩)
  else
    let s := find_first_body bodies
    Except.ok (s.first_index,
      ⟨bodies.map Body.name, some s.altitudes, some s.azimuths, some s.times_to_set,
        some s.observables⟩)

/-- Step 3 of `run` (`main.py` lines 55-70): read the `Altitude`/`Azimuth`
columns (a `KeyError` if absent), build the distance matrix with the
metric `dist`, and unless the start index is the sentinel `-1` run
`greedy_tsp` and print via `show_results`. -/
def run_step3 [LinearOrder α] (dist : ℚ × ℚ → ℚ × ℚ → α) (df : DF)
    (first_index : Int) : Except RunError RunOutcome :=
  match df.altitudeCol, df.azimuthCol with
  | some alts, some azs =>
    let coordinates := alts.zip azs
    let dmatrix : ℕ → ℕ → α := fun i j => dist (coordinates.getD i (0, 0)) (coordinates.getD j (0, 0))
    if first_index ≠ -1 then
      match greedy_tsp (make_graph coordinates dmatrix) first_index.toNat with
      | some tsp_path =>
        Except.ok (RunOutcome.planned tsp_path
          (show_results (tsp_path.map (fun k => df.names.getD k ""))))
      | none => Except.error RunError.nxError
    else
      Except.ok RunOutcome.noStart
  | _, _ => Except.error (RunError.missingColumn "Altitude")

/-- `CelestialTSP.run` (`main.py` lines 35-70), parametrised by the metric
`dist` used for the scipy `distance_matrix` (the program instantiates it
with the Euclidean distance on (altitude, azimuth) pairs; the claims
about `run` hold for every metric): step 2 then step 3, with a fatal
error short-circuiting. -/
def run_with [LinearOrder α] (dist : ℚ × ℚ → ℚ × ℚ → α)
    (bodies : List Body) (first_body : String) : Except RunError RunOutcome :=
  match run_step2 bodies first_body with
  | Except.error e => Except.error e
  | Except.ok (first_index, df) => run_step3 dist df first_index

/-- The scipy metric: Euclidean distance between two (altitude, azimuth)
points, `sqrt((alt_i - alt_j)^2 + (az_i - az_j)^2)`. -/
noncomputable def euclid_distance (p q : ℚ × ℚ) : ℝ :=
  Real.sqrt (((p.1 : ℝ) - (q.1 : ℝ)) ^ 2 + ((p.2 : ℝ) - (q.2 : ℝ)) ^ 2)

/-- `scipy.spatial.distance_matrix(coordinates, coordinates)` as a weight
function on row indices. -/
noncomputable def distance_matrix (coords : List (ℚ × ℚ)) : ℕ → ℕ → ℝ :=
  fun i j => euclid_distance (coords.getD i (0, 0)) (coords.getD j (0, 0))

/-- `CelestialTSP.run` itself: `run_with` instantiated at the Euclidean
metric actually used by the program. -/
noncomputable def run (bodies : List Body) (first_body : String) : Except RunError RunOutcome :=
  run_with (fun p q => euclid_distance p q) bodies first_body

/-! ### The horizon-crossing estimator -/

/-- `List.find?` returns the first element satisfying the predicate:
characterisation by position. -/
theorem find?_eq_some_iff_first {β : Type} (p : β → Bool) (l : List β) (v : β) :
    l.find? p = some v ↔
      ∃ k, k < l.length ∧ l[k]? = some v ∧ p v = true ∧
        ∀ j, j < k → ∀ u, l[j]? = some u → p u = false := by
  induction l with
  | nil => simp
  | cons x xs ih =>
    cases hx : p x with
    | true =>
      rw [List.find?_cons_of_pos _ hx]
      constructor
      · intro hv
        injection hv with hv
        subst hv
        exact ⟨0, by simp, by simp, hx, fun j hj => absurd hj (Nat.not_lt_zero j)⟩
      · rintro ⟨k, hk, hv, hpv, hfirst⟩
        cases k with
        | zero =>
          simp only [List.getElem?_cons_zero] at hv
          injection hv with hv
          rw [hv]
        | succ k =>
          have := hfirst 0 (Nat.succ_pos k) x (by simp)
          rw [hx] at this
          cases this
    | false =>
      rw [List.find?_cons_of_neg _ (by simp [hx]), ih]
      constructor
      · rintro ⟨k, hk, hv, hpv, hfirst⟩
        refine ⟨k + 1, by simp only [List.length_cons]; omega, by simpa using hv, hpv, ?_⟩
        intro j hj u hu
        cases j with
        | zero =>
          simp only [List.getElem?_cons_zero] at hu
          injection hu with hu
          rw [← hu]
          exact hx
        | succ j => exact hfirst j (by omega) u (by simpa using hu)
      · rintro ⟨k, hk, hv, hpv, hfirst⟩
        cases k with
        | zero =>
          simp only [List.getElem?_cons_zero] at hv
          injection hv with hv
          rw [← hv] at hpv
          rw [hpv] at hx
          cases hx
        | succ k =>
          simp only [List.length_cons] at hk
          exact ⟨k, by omega, by simpa using hv, hpv,
            fun j hj u hu => hfirst (j + 1) (by omega) u (by simpa using hu)⟩

theorem timeToSetSamples_length : timeToSetSamples.length = 1000 := by
  rw [timeToSetSamples, List.length_map, List.length_range]

theorem timeToSetSamples_getElem? {k : ℕ} (hk : k < 1000) :
    timeToSetSamples[k]? = some (24 * (k : ℚ) / 999) := by
  rw [timeToSetSamples, List.getElem?_map, List.getElem?_range hk, Option.map_some']

theorem timeToSetSamples_mem {t : ℚ} :
    t ∈ timeToSetSamples ↔ ∃ k : ℕ, k < 1000 ∧ t = 24 * (k : ℚ) / 999 := by
  rw [timeToSetSamples, List.mem_map]
  constructor
  · rintro ⟨k, hk, rfl⟩
    exact ⟨k, List.mem_range.mp hk, rfl⟩
  · rintro ⟨k, hk, rfl⟩
    exact ⟨k, List.mem_range.mpr hk, rfl⟩

/-- A body whose current altitude is not positive gets an infinite time to
set, no matter what the future altitudes are. -/
theorem body_time_to_set_of_nonpos {altAt : ℚ → ℚ} (h : altAt 0 ≤ 0) :
    body_time_to_set altAt = none := by
  rw [body_time_to_set, if_neg (not_lt.mpr h)]

/-- For a body above the horizon, the estimator returns `some t` exactly
when `t` is the elapsed time (in hours) of the chronologically first grid
sample whose altitude is not positive. -/
theorem body_time_to_set_some_iff {altAt : ℚ → ℚ} (h : 0 < altAt 0) (t : ℚ) :
    body_time_to_set altAt = some t ↔
      ∃ k : ℕ, k < 1000 ∧ t = 24 * (k : ℚ) / 999 ∧ altAt (24 * (k : ℚ) / 999) ≤ 0 ∧
        ∀ j : ℕ, j < k → 0 < altAt (24 * (j : ℚ) / 999) := by
  rw [body_time_to_set, if_pos h, find?_eq_some_iff_first]
  constructor
  · rintro ⟨k, hk, hv, hpv, hfirst⟩
    rw [timeToSetSamples_length] at hk
    rw [timeToSetSamples_getElem? hk] at hv
    injection hv with hv
    refine ⟨k, hk, hv.symm, ?_, ?_⟩
    · rw [hv]
      exact of_decide_eq_true hpv
    · intro j hj
      have hj1000 : j < 1000 := by omega
      have := hfirst j hj _ (timeToSetSamples_getElem? hj1000)
      exact lt_of_not_le (fun hle => by rw [decide_eq_true hle] at this; cases this)
  · rintro ⟨k, hk, rfl, hle, hfirst⟩
    refine ⟨k, by rw [timeToSetSamples_length]; exact hk, timeToSetSamples_getElem? hk,
      decide_eq_true hle, ?_⟩
    intro j hj u hu
    have hj1000 : j < 1000 := by omega
    rw [timeToSetSamples_getElem? hj1000] at hu
    injection hu with hu
    rw [← hu]
    exact decide_eq_false (not_le.mpr (hfirst j hj))

/-- For a body above the horizon, the estimator returns infinity exactly
when no grid sample inside the 24-hour window has altitude `≤ 0`. -/
theorem body_time_to_set_none_iff {altAt : ℚ → ℚ} (h : 0 < altAt 0) :
    body_time_to_set altAt = none ↔ ∀ k : ℕ, k < 1000 → 0 < altAt (24 * (k : ℚ) / 999) := by
  rw [body_time_to_set, if_pos h, List.find?_eq_none]
  constructor
  · intro hall k hk
    have := hall _ (timeToSetSamples_mem.mpr ⟨k, hk, rfl⟩)
    exact lt_of_not_le (fun hle => this (decide_eq_true hle))
  · intro hall t ht
    rcases timeToSetSamples_mem.mp ht with ⟨k, hk, rfl⟩
    simpa using not_le.mpr (hall k hk)

/-! ### The start selector -/

theorem ltInf_none (t : ℚ) : ltInf t none = true := rfl

theorem ltInf_some_iff {t v : ℚ} : ltInf t (some v) = true ↔ t < v := by
  simp [ltInf]

theorem ltInf_false_iff {t : ℚ} {s : Option ℚ} :
    ltInf t s = false ↔ ∃ v, s = some v ∧ v ≤ t := by
  cases s with
  | none => simp [ltInf]
  | some v => simp [ltInf]

theorem ltInf_trans {t u : ℚ} {s : Option ℚ} (h1 : t < u) (h2 : ltInf u s = true) :
    ltInf t s = true := by
  cases s with
  | none => rfl
  | some v => exact ltInf_some_iff.mpr (lt_trans h1 (ltInf_some_iff.mp h2))

/-- Characterisation of the running-minimum scan of `find_first_body`:
either no time beats the initial minimum and the state is unchanged, or
the scan returns the position of the first time attaining the overall
minimum (later equal values do not replace it because the comparison is
the strict `<`). -/
theorem sel_loop_spec (ts : List (Option ℚ)) : ∀ (i : ℕ) (s : Option ℚ) (f : ℤ),
    (sel_loop ts i s f = (s, f) ∧ ∀ (j : ℕ) (u : ℚ), ts[j]? = some (some u) → ltInf u s = false) ∨
    (∃ (k : ℕ) (t : ℚ), ts[k]? = some (some t) ∧ sel_loop ts i s f = (some t, ((i + k : ℕ) : ℤ)) ∧
      ltInf t s = true ∧ (∀ (j : ℕ) (u : ℚ), ts[j]? = some (some u) → t ≤ u) ∧
      (∀ j : ℕ, j < k → ∀ u : ℚ, ts[j]? = some (some u) → t < u)) := by
  induction ts with
  | nil =>
    intro i s f
    left
    exact ⟨rfl, fun j u h => by simp at h⟩
  | cons t? rest ih =>
    intro i s f
    cases t? with
    | none =>
      have hstep : sel_loop (none :: rest) i s f = sel_loop rest (i + 1) s f := by
        simp [sel_loop]
      rcases ih (i + 1) s f with ⟨heq, hall⟩ | ⟨k, t, hk, heq, hlt, hmin, hfirst⟩
      · left
        refine ⟨by rw [hstep, heq], ?_⟩
        intro j u hj
        cases j with
        | zero => simp at hj
        | succ j => exact hall j u (by simpa using hj)
      · right
        refine ⟨k + 1, t, by simpa using hk, ?_, hlt, ?_, ?_⟩
        · rw [hstep, heq]
          rw [Prod.mk.injEq]
          exact ⟨rfl, by omega⟩
        · intro j u hj
          cases j with
          | zero => simp at hj
          | succ j => exact hmin j u (by simpa using hj)
        · intro j hj u hu
          cases j with
          | zero => simp at hu
          | succ j => exact hfirst j (by omega) u (by simpa using hu)
    | some u0 =>
      cases hub : ltInf u0 s with
      | true =>
        have hstep : sel_loop (some u0 :: rest) i s f = sel_loop rest (i + 1) (some u0) (i : ℤ) := by
          simp [sel_loop, hub]
        rcases ih (i + 1) (some u0) (i : ℤ) with ⟨heq, hall⟩ | ⟨k, t, hk, heq, hlt, hmin, hfirst⟩
        · right
          refine ⟨0, u0, by simp, ?_, hub, ?_, fun j hj => absurd hj (Nat.not_lt_zero j)⟩
          · rw [hstep, heq]
            rw [Prod.mk.injEq]
            exact ⟨rfl, by omega⟩
          · intro j u hj
            cases j with
            | zero =>
              simp only [List.getElem?_cons_zero] at hj
              injection hj with hj
              injection hj with hj
              rw [hj]
            | succ j =>
              have := hall j u (by simpa using hj)
              rcases ltInf_false_iff.mp this with ⟨v, hv, hvu⟩
              injection hv with hv
              rw [hv]
              exact hvu
        · right
          have htu : t < u0 := ltInf_some_iff.mp hlt
          refine ⟨k + 1, t, by simpa using hk, ?_, ltInf_trans htu hub, ?_, ?_⟩
          · rw [hstep, heq]
            rw [Prod.mk.injEq]
            exact ⟨rfl, by omega⟩
          · intro j u hj
            cases j with
            | zero =>
              simp only [List.getElem?_cons_zero] at hj
              injection hj with hj
              injection hj with hj
              rw [← hj]
              exact le_of_lt htu
            | succ j => exact hmin j u (by simpa using hj)
          · intro j hj u hu
            cases j with
            | zero =>
              simp only [List.getElem?_cons_zero] at hu
              injection hu with hu
              injection hu with hu
              rw [← hu]
              exact htu
            | succ j => exact hfirst j (by omega) u (by simpa using hu)
      | false =>
        have hstep : sel_loop (some u0 :: rest) i s f = sel_loop rest (i + 1) s f := by
          simp [sel_loop, hub]
        rcases ltInf_false_iff.mp hub with ⟨v, hv, hvu⟩
        rcases ih (i + 1) s f with ⟨heq, hall⟩ | ⟨k, t, hk, heq, hlt, hmin, hfirst⟩
        · left
          refine ⟨by rw [hstep, heq], ?_⟩
          intro j u hj
          cases j with
          | zero =>
            simp only [List.getElem?_cons_zero] at hj
            injection hj with hj
            injection hj with hj
            rw [← hj]
            exact hub
          | succ j => exact hall j u (by simpa using hj)
        · right
          have htu : t < u0 := by
            rw [hv] at hlt
            exact lt_of_lt_of_le (ltInf_some_iff.mp hlt) hvu
          refine ⟨k + 1, t, by simpa using hk, ?_, hlt, ?_, ?_⟩
          · rw [hstep, heq]
            rw [Prod.mk.injEq]
            exact ⟨rfl, by omega⟩
          · intro j u hj
            cases j with
            | zero =>
              simp only [List.getElem?_cons_zero] at hj
              injection hj with hj
              injection hj with hj
              rw [← hj]
              exact le_of_lt htu
            | succ j => exact hmin j u (by simpa using hj)
          · intro j hj u hu
            cases j with
            | zero =>
              simp only [List.getElem?_cons_zero] at hu
              injection hu with hu
              injection hu with hu
              rw [← hu]
              exact htu
            | succ j => exact hfirst j (by omega) u (by simpa using hu)

theorem find_first_body_aux_times (bs : List Body) : ∀ (i : ℕ) (s : Option ℚ) (f : ℤ),
    (find_first_body_aux bs i s f).times_to_set = bs.map (fun b => body_time_to_set b.altAt) := by
  induction bs with
  | nil => intro i s f; rfl
  | cons b rest ih =>
    intro i s f
    simp only [find_first_body_aux, List.map_cons, List.cons.injEq]
    exact ⟨trivial, ih _ _ _⟩

theorem find_first_body_aux_altitudes (bs : List Body) : ∀ (i : ℕ) (s : Option ℚ) (f : ℤ),
    (find_first_body_aux bs i s f).altitudes = bs.map (fun b => b.altAt 0) := by
  induction bs with
  | nil => intro i s f; rfl
  | cons b rest ih =>
    intro i s f
    simp only [find_first_body_aux, List.map_cons, List.cons.injEq]
    exact ⟨trivial, ih _ _ _⟩

theorem find_first_body_aux_azimuths (bs : List Body) : ∀ (i : ℕ) (s : Option ℚ) (f : ℤ),
    (find_first_body_aux bs i s f).azimuths = bs.map (fun b => b.azAt 0) := by
  induction bs with
  | nil => intro i s f; rfl
  | cons b rest ih =>
    intro i s f
    simp only [find_first_body_aux, List.map_cons, List.cons.injEq]
    exact ⟨trivial, ih _ _ _⟩

theorem find_first_body_aux_observables (bs : List Body) : ∀ (i : ℕ) (s : Option ℚ) (f : ℤ),
    (find_first_body_aux bs i s f).observables = bs.map (fun b => is_observable (b.altAt 0) 0) := by
  induction bs with
  | nil => intro i s f; rfl
  | cons b rest ih =>
    intro i s f
    simp only [find_first_body_aux, List.map_cons, List.cons.injEq]
    exact ⟨trivial, ih _ _ _⟩

theorem find_first_body_aux_first (bs : List Body) : ∀ (i : ℕ) (s : Option ℚ) (f : ℤ),
    (find_first_body_aux bs i s f).first_index =
      (sel_loop (bs.map (fun b => body_time_to_set b.altAt)) i s f).2 := by
  induction bs with
  | nil => intro i s f; rfl
  | cons b rest ih =>
    intro i s f
    cases ht : body_time_to_set b.altAt with
    | none =>
      simp only [find_first_body_aux, List.map_cons, sel_loop, ht]
      exact ih _ _ _
    | some t =>
      cases hl : ltInf t s with
      | true =>
        simp only [find_first_body_aux, List.map_cons, sel_loop, ht, hl, if_true]
        exact ih _ _ _
      | false =>
        simp only [find_first_body_aux, List.map_cons, sel_loop, ht, hl, if_false]
        exact ih _ _ _

/-- `find_first_body` fills the four dataframe columns with the per-body
observation state, independently of the selection bookkeeping. -/
theorem find_first_body_fields (bodies : List Body) :
    (find_first_body bodies).times_to_set = bodies.map (fun b => body_time_to_set b.altAt) ∧
    (find_first_body bodies).altitudes = bodies.map (fun b => b.altAt 0) ∧
    (find_first_body bodies).azimuths = bodies.map (fun b => b.azAt 0) ∧
    (find_first_body bodies).observables = bodies.map (fun b => is_observable (b.altAt 0) 0) :=
  ⟨find_first_body_aux_times bodies 0 none (-1), find_first_body_aux_altitudes bodies 0 none (-1),
    find_first_body_aux_azimuths bodies 0 none (-1),
    find_first_body_aux_observables bodies 0 none (-1)⟩

/-- `find_first_body` returns `-1` exactly when every time-to-set is
infinite. -/
theorem find_first_body_neg_one_iff (bodies : List Body) :
    (find_first_body bodies).first_index = -1 ↔
      ∀ t ∈ (find_first_body bodies).times_to_set, t = none := by
  have hts : (find_first_body bodies).times_to_set
      = bodies.map (fun b => body_time_to_set b.altAt) :=
    find_first_body_aux_times bodies 0 none (-1)
  have hfi : (find_first_body bodies).first_index
      = (sel_loop (bodies.map (fun b => body_time_to_set b.altAt)) 0 none (-1)).2 :=
    find_first_body_aux_first bodies 0 none (-1)
  rw [hfi, hts]
  rcases sel_loop_spec (bodies.map (fun b => body_time_to_set b.altAt)) 0 none (-1) with
    ⟨heq, hall⟩ | ⟨k, t, hk, heq, _, _, _⟩
  · rw [heq]
    constructor
    · intro _ t ht
      rcases List.mem_iff_getElem?.mp ht with ⟨j, hj⟩
      cases t with
      | none => rfl
      | some u =>
        have := hall j u hj
        rw [ltInf_none] at this
        cases this
    · intro _
      rfl
  · rw [heq]
    constructor
    · intro h
      exfalso
      replace h : ((0 + k : ℕ) : ℤ) = -1 := h
      omega
    · intro hall
      exfalso
      have hmem : some t ∈ bodies.map (fun b => body_time_to_set b.altAt) :=
        List.getElem?_mem hk
      have := hall (some t) hmem
      cases this

/-- `find_first_body` returns the natural index `i` exactly when body `i`
has a finite time-to-set that is minimal among all finite times-to-set and
every earlier body's finite time-to-set is strictly larger (the first body
attaining the minimum wins). -/
theorem find_first_body_index_iff (bodies : List Body) (i : ℕ) :
    (find_first_body bodies).first_index = (i : ℤ) ↔
      ∃ t : ℚ, (find_first_body bodies).times_to_set[i]? = some (some t) ∧
        (∀ (j : ℕ) (u : ℚ), (find_first_body bodies).times_to_set[j]? = some (some u) → t ≤ u) ∧
        (∀ j : ℕ, j < i → ∀ u : ℚ,
          (find_first_body bodies).times_to_set[j]? = some (some u) → t < u) := by
  have hts : (find_first_body bodies).times_to_set
      = bodies.map (fun b => body_time_to_set b.altAt) :=
    find_first_body_aux_times bodies 0 none (-1)
  have hfi : (find_first_body bodies).first_index
      = (sel_loop (bodies.map (fun b => body_time_to_set b.altAt)) 0 none (-1)).2 :=
    find_first_body_aux_first bodies 0 none (-1)
  rw [hts, hfi]
  rcases sel_loop_spec (bodies.map (fun b => body_time_to_set b.altAt)) 0 none (-1) with
    ⟨heq, hall⟩ | ⟨k, t, hk, heq, _, hmin, hfirst⟩
  · rw [heq]
    constructor
    · intro h
      exfalso
      replace h : (-1 : ℤ) = (i : ℤ) := h
      omega
    · rintro ⟨t, ht, _, _⟩
      have := hall i t ht
      rw [ltInf_none] at this
      cases this
  · rw [heq]
    constructor
    · intro h
      replace h : ((0 + k : ℕ) : ℤ) = (i : ℤ) := h
      have hki : k = i := by omega
      rw [hki] at hk hfirst
      exact ⟨t, hk, hmin, hfirst⟩
    · rintro ⟨t', ht', hmin', hfirst'⟩
      have hki : k = i := by
        rcases Nat.lt_trichotomy k i with hlt | heq' | hgt
        · have h1 : t' < t := hfirst' k hlt t hk
          have h2 : t' ≤ t := hmin' k t hk
          have h3 : t ≤ t' := hmin i t' ht'
          exact absurd h1 (not_lt.mpr h3)
        · exact heq'
        · have h1 : t < t' := hfirst i hgt t' ht'
          have h3 : t' ≤ t := hmin' k t hk
          exact absurd h1 (not_lt.mpr h3)
      show ((0 + k : ℕ) : ℤ) = (i : ℤ)
      omega

/-! ### The distance-graph builder and the greedy planner -/

theorem find?_eq_some_of_unique {β : Type} (p : β → Bool) (v : β) :
    ∀ l : List β, v ∈ l → p v = true → (∀ x ∈ l, p x = true → x = v) →
      l.find? p = some v := by
  intro l
  induction l with
  | nil => intro hv; cases hv
  | cons x xs ih =>
    intro hv hpv huniq
    by_cases hx : p x = true
    · rw [List.find?_cons_of_pos _ hx, huniq x (List.mem_cons_self x xs) hx]
    · rw [List.find?_cons_of_neg _ hx]
      rcases List.mem_cons.mp hv with rfl | hv'
      · exact absurd hpv hx
      · exact ih hv' hpv (fun y hy hpy => huniq y (List.mem_cons_of_mem _ hy) hpy)

theorem mem_edges_make_graph {coords : List (ℚ × ℚ)} {dm : ℕ → ℕ → α} {a b : ℕ} {w : α} :
    (a, b, w) ∈ (make_graph coords dm).edges ↔
      a < b ∧ b < coords.length ∧ w = dm a b := by
  simp only [make_graph, List.mem_flatMap, List.mem_map, List.mem_filter, List.mem_range]
  constructor
  · rintro ⟨i, hi, j, ⟨hj, hij⟩, he⟩
    injection he with h1 h2
    injection h2 with h2 h3
    subst h1
    subst h2
    subst h3
    exact ⟨of_decide_eq_true hij, hj, rfl⟩
  · rintro ⟨hab, hb, rfl⟩
    exact ⟨a, lt_trans hab hb, b, ⟨hb, decide_eq_true hab⟩, rfl⟩

theorem nodes_make_graph (coords : List (ℚ × ℚ)) (dm : ℕ → ℕ → α) :
    (make_graph coords dm).nodes = List.range coords.length := rfl

theorem adjW_make_graph {coords : List (ℚ × ℚ)} {dm : ℕ → ℕ → α} {a b : ℕ}
    (ha : a < coords.length) (hb : b < coords.length) (hab : a ≠ b) :
    adjW (make_graph coords dm) a b = some (dm (min a b) (max a b)) := by
  have hmm : min a b < max a b := by omega
  have hmem : ((min a b, max a b, dm (min a b) (max a b)) : ℕ × ℕ × α)
      ∈ (make_graph coords dm).edges :=
    mem_edges_make_graph.mpr ⟨hmm, by omega, rfl⟩
  have hmatch : edgeMatches a b (min a b, max a b, dm (min a b) (max a b)) = true := by
    simp only [edgeMatches, Bool.or_eq_true, Bool.and_eq_true, beq_iff_eq]
    omega
  have huniq : ∀ e ∈ (make_graph coords dm).edges, edgeMatches a b e = true →
      e = (min a b, max a b, dm (min a b) (max a b)) := by
    rintro ⟨i, j, w⟩ he hpe
    rcases mem_edges_make_graph.mp he with ⟨hij, hjn, hw⟩
    simp only [edgeMatches, Bool.or_eq_true, Bool.and_eq_true, beq_iff_eq] at hpe
    have hi : i = min a b := by omega
    have hj : j = max a b := by omega
    subst hi
    subst hj
    rw [hw]
  rw [adjW, find?_eq_some_of_unique _ _ _ hmem hmatch huniq]
  rfl

theorem adjW_self_make_graph (coords : List (ℚ × ℚ)) (dm : ℕ → ℕ → α) (a : ℕ) :
    adjW (make_graph coords dm) a a = none := by
  rw [adjW, List.find?_eq_none.mpr]
  · rfl
  · rintro ⟨i, j, w⟩ he
    rcases mem_edges_make_graph.mp he with ⟨hij, _, _⟩
    simp only [edgeMatches, Bool.or_eq_true, Bool.and_eq_true, beq_iff_eq]
    omega

theorem adjW_comm (G : NXGraph α) (a b : ℕ) : adjW G a b = adjW G b a := by
  have hpred : edgeMatches a b = edgeMatches (α := α) b a := by
    funext e
    simp only [edgeMatches]
    rw [Bool.or_comm]
  rw [adjW, adjW, hpred]

theorem isComplete_make_graph (coords : List (ℚ × ℚ)) (dm : ℕ → ℕ → α) :
    isComplete (make_graph coords dm) = true := by
  rw [isComplete, List.all_eq_true]
  intro a ha
  rw [List.all_eq_true]
  intro b hb
  rw [nodes_make_graph, List.mem_range] at ha hb
  by_cases hab : a = b
  · simp [hab]
  · rw [adjW_make_graph ha hb hab]
    simp

theorem selectMin_isSome {α : Type} [LinearOrder α] (keyf : ℕ → Option α) :
    ∀ ns : List ℕ, ns ≠ [] → (∀ m ∈ ns, (keyf m).isSome = true) →
      ∃ x k, selectMin keyf ns = some (x, k) ∧ x ∈ ns := by
  intro ns
  induction ns with
  | nil => intro h; cases h rfl
  | cons x xs ih =>
    intro _ hkeys
    have hx : (keyf x).isSome = true := hkeys x (List.mem_cons_self x xs)
    rcases Option.isSome_iff_exists.mp hx with ⟨kx, hkx⟩
    cases xs with
    | nil =>
      refine ⟨x, kx, ?_, List.mem_cons_self x []⟩
      simp [selectMin, hkx]
    | cons y ys =>
      rcases ih (by simp) (fun m hm => hkeys m (List.mem_cons_of_mem _ hm)) with
        ⟨x', k', hsel, hx'⟩
      by_cases hle : kx ≤ k'
      · refine ⟨x, kx, ?_, List.mem_cons_self x (y :: ys)⟩
        simp [selectMin, hkx, hsel, hle]
      · refine ⟨x', k', ?_, List.mem_cons_of_mem _ hx'⟩
        simp [selectMin, hkx, hsel, hle]

theorem greedyLoop_perm {α : Type} [LinearOrder α] (G : NXGraph α) (n : ℕ)
    (hadj : ∀ a b : ℕ, a < n → b < n → a ≠ b → (adjW G a b).isSome = true) :
    ∀ (fuel : ℕ) (ns : List ℕ) (cur : ℕ), ns.length = fuel → ns.Nodup →
      (∀ m ∈ ns, m < n ∧ m ≠ cur) → cur < n →
      ∃ vs, greedyLoop G fuel cur ns = some vs ∧ vs.Perm ns := by
  intro fuel
  induction fuel with
  | zero =>
    intro ns cur hlen _ _ _
    have hns : ns = [] := List.eq_nil_of_length_eq_zero hlen
    subst hns
    exact ⟨[], rfl, List.Perm.refl []⟩
  | succ fuel ih =>
    intro ns cur hlen hnd hmem hcur
    cases ns with
    | nil => exact ⟨[], rfl, List.Perm.refl []⟩
    | cons m ms =>
      have hkeys : ∀ b ∈ m :: ms, ((fun b => adjW G cur b) b).isSome = true := by
        intro b hb
        rcases hmem b hb with ⟨hbn, hbc⟩
        exact hadj cur b hcur hbn (fun h => hbc h.symm)
      rcases selectMin_isSome _ (m :: ms) (by simp) hkeys with ⟨x, k, hsel, hxmem⟩
      have hxn : x < n := (hmem x hxmem).1
      have herase_len : ((m :: ms).erase x).length = fuel := by
        rw [List.length_erase_of_mem hxmem, hlen]
        omega
      have hnd' : ((m :: ms).erase x).Nodup := hnd.erase x
      have hmem' : ∀ b ∈ (m :: ms).erase x, b < n ∧ b ≠ x := by
        intro b hb
        have hbx : b ≠ x ∧ b ∈ m :: ms := (hnd.mem_erase_iff).mp hb
        exact ⟨(hmem b hbx.2).1, hbx.1⟩
      rcases ih ((m :: ms).erase x) x herase_len hnd' hmem' hxn with ⟨vs, hloop, hperm⟩
      refine ⟨x :: vs, ?_, ?_⟩
      · show greedyLoop G (fuel + 1) cur (m :: ms) = some (x :: vs)
        rw [greedyLoop, hsel]
        dsimp only
        rw [hloop]
      · exact (hperm.cons x).trans (List.perm_cons_erase hxmem).symm

theorem filter_ne_eq_erase (l : List ℕ) (s : ℕ) (h : l.Nodup) :
    l.filter (fun m => decide (m ≠ s)) = l.erase s := by
  rw [h.erase_eq_filter]
  congr 1
  funext m
  by_cases hms : m = s
  · subst hms
    simp
  · simp [hms]

theorem cons_filter_ne_perm {n s : ℕ} (hs : s < n) :
    (s :: (List.range n).filter (fun m => decide (m ≠ s))).Perm (List.range n) := by
  rw [filter_ne_eq_erase _ _ (List.nodup_range n)]
  exact (List.perm_cons_erase (List.mem_range.mpr hs)).symm

/-- On every graph built by `make_graph`, `greedy_tsp` succeeds and
produces the closed cycle `source :: visited ++ [source]`, where
`source :: visited` hits every node exactly once. -/
theorem greedy_tsp_make_graph {α : Type} [LinearOrder α]
    (coords : List (ℚ × ℚ)) (dm : ℕ → ℕ → α) (s : ℕ) (hs : s < coords.length) :
    ∃ vs : List ℕ, greedy_tsp (make_graph coords dm) s = some (s :: (vs ++ [s])) ∧
      (s :: vs).Perm (List.range coords.length) := by
  have hcomp := isComplete_make_graph coords dm
  have hsmem : s ∈ (make_graph coords dm).nodes := by
    rw [nodes_make_graph, List.mem_range]
    exact hs
  have hadj : ∀ a b : ℕ, a < coords.length → b < coords.length → a ≠ b →
      (adjW (make_graph coords dm) a b).isSome = true := by
    intro a b ha hb hab
    rw [adjW_make_graph ha hb hab]
    rfl
  by_cases h2 : coords.length = 2
  · have hnodes : (make_graph coords dm).nodes = [0, 1] := by
      rw [nodes_make_graph, h2]
      rfl
    have hlen2 : (make_graph coords dm).nodes.length = 2 := by
      rw [hnodes]
      rfl
    have ha01 : (adjW (make_graph coords dm) 0 1).isSome = true :=
      hadj 0 1 (by omega) (by omega) (by omega)
    have ha10 : (adjW (make_graph coords dm) 1 0).isSome = true :=
      hadj 1 0 (by omega) (by omega) (by omega)
    have ha00 : (adjW (make_graph coords dm) 0 0).isSome = false := by
      rw [adjW_self_make_graph]
      rfl
    have ha11 : (adjW (make_graph coords dm) 1 1).isSome = false := by
      rw [adjW_self_make_graph]
      rfl
    have hs2 : s < 2 := by omega
    have hrange : List.range coords.length = [0, 1] := by
      rw [h2]
      rfl
    interval_cases s
    · refine ⟨[1], ?_, ?_⟩
      · rw [greedy_tsp, if_pos hcomp, if_pos hsmem, if_pos hlen2, hnodes]
        simp [List.filter_cons, ha00, ha01]
      · rw [hrange]
    · refine ⟨[0], ?_, ?_⟩
      · rw [greedy_tsp, if_pos hcomp, if_pos hsmem, if_pos hlen2, hnodes]
        simp [List.filter_cons, ha10, ha11]
      · rw [hrange]
        exact List.Perm.swap 0 1 []
  · have hlen2 : ¬ (make_graph coords dm).nodes.length = 2 := by
      rw [nodes_make_graph, List.length_range]
      exact h2
    have hns_eq : (make_graph coords dm).nodes.filter (fun m => decide (m ≠ s))
        = (List.range coords.length).filter (fun m => decide (m ≠ s)) := by
      rw [nodes_make_graph]
    have hnd : ((make_graph coords dm).nodes.filter (fun m => decide (m ≠ s))).Nodup := by
      rw [hns_eq]
      exact (List.nodup_range coords.length).filter _
    have hmem : ∀ m ∈ (make_graph coords dm).nodes.filter (fun m => decide (m ≠ s)),
        m < coords.length ∧ m ≠ s := by
      intro m hm
      rw [hns_eq, List.mem_filter, List.mem_range] at hm
      exact ⟨hm.1, of_decide_eq_true hm.2⟩
    rcases greedyLoop_perm (make_graph coords dm) coords.length hadj
        ((make_graph coords dm).nodes.filter (fun m => decide (m ≠ s))).length
        ((make_graph coords dm).nodes.filter (fun m => decide (m ≠ s))) s rfl hnd hmem hs with
      ⟨vs, hloop, hperm⟩
    refine ⟨vs, ?_, ?_⟩
    · rw [greedy_tsp, if_pos hcomp, if_pos hsmem, if_neg hlen2]
      show ((greedyLoop (make_graph coords dm)
          ((make_graph coords dm).nodes.filter (fun m => decide (m ≠ s))).length s
          ((make_graph coords dm).nodes.filter (fun m => decide (m ≠ s)))).map
          (fun visited => s :: (visited ++ [s]))) = some (s :: (vs ++ [s]))
      rw [hloop]
      rfl
    · refine (hperm.cons s).trans ?_
      rw [hns_eq]
      exact cons_filter_ne_perm hs

/-! ### Reporting and the driver -/

theorem shown_kept_enumFrom {β : Type} : ∀ (l : List β) (k : ℕ),
    shown_kept (k + l.length) (List.enumFrom k l) = l.dropLast := by
  intro l
  induction l with
  | nil => intro k; rfl
  | cons r rs ih =>
    intro k
    rw [List.enumFrom_cons]
    cases rs with
    | nil =>
      show shown_kept (k + 1) ((k, r) :: List.enumFrom (k + 1) []) = []
      rw [shown_kept, if_pos rfl]
      rfl
    | cons y ys =>
      have hcond : ¬ (k + 1 = k + (r :: y :: ys).length) := by
        simp only [List.length_cons]
        omega
      rw [shown_kept, if_neg hcond]
      have harg : k + (r :: y :: ys).length = (k + 1) + (y :: ys).length := by
        simp only [List.length_cons]
        omega
      rw [harg, ih (k + 1)]
      rfl

/-- `show_results` prints exactly the rows of the reordered dataframe
except the last one. -/
theorem show_results_eq_dropLast {β : Type} (rows : List β) :
    show_results rows = rows.dropLast := by
  rw [show_results]
  have h := shown_kept_enumFrom rows 0
  rw [Nat.zero_add] at h
  exact h

theorem snd_mem_of_mem_enumFrom {β : Type} : ∀ (l : List β) (k : ℕ) (x : ℕ × β),
    x ∈ List.enumFrom k l → x.2 ∈ l := by
  intro l
  induction l with
  | nil => intro k x hx; cases hx
  | cons y ys ih =>
    intro k x hx
    rw [List.enumFrom_cons] at hx
    rcases List.mem_cons.mp hx with rfl | hx'
    · exact List.mem_cons_self _ _
    · exact List.mem_cons_of_mem _ (ih (k + 1) x hx')

theorem matching_indices_eq_nil {names : List String} {target : String}
    (h : ∀ nm ∈ names, nm ≠ target) : matching_indices names target = [] := by
  rw [matching_indices, List.map_eq_nil_iff, List.filter_eq_nil_iff]
  intro p hp
  have : p.2 ∈ names := snd_mem_of_mem_enumFrom names 0 p hp
  simp only [beq_iff_eq]
  exact h p.2 this

theorem run_step2_of_unmatched {bodies : List Body} {name : String} (hne : name ≠ "")
    (h : ∀ b ∈ bodies, b.name ≠ name) :
    run_step2 bodies name = Except.error (RunError.notFound name) := by
  have hmatch : matching_indices (bodies.map Body.name) name = [] := by
    refine matching_indices_eq_nil ?_
    intro nm hnm
    rcases List.mem_map.mp hnm with ⟨b, hb, rfl⟩
    exact h b hb
  rw [run_step2, if_pos hne, hmatch]

theorem run_step2_no_override (bodies : List Body) :
    run_step2 bodies "" = Except.ok ((find_first_body bodies).first_index,
      ⟨bodies.map Body.name, some (find_first_body bodies).altitudes,
        some (find_first_body bodies).azimuths, some (find_first_body bodies).times_to_set,
        some (find_first_body bodies).observables⟩) := by
  rw [run_step2, if_neg (by simp)]

theorem run_step3_missing_column {α : Type} [LinearOrder α] (dist : ℚ × ℚ → ℚ × ℚ → α)
    (df : DF) (first_index : Int) (h : df.altitudeCol = none) :
    run_step3 dist df first_index = Except.error (RunError.missingColumn "Altitude") := by
  rw [run_step3, h]

theorem run_step3_no_start {α : Type} [LinearOrder α] (dist : ℚ × ℚ → ℚ × ℚ → α)
    {df : DF} {alts : List ℚ} {azs : List ℚ} (ha : df.altitudeCol = some alts)
    (hz : df.azimuthCol = some azs) :
    run_step3 dist df (-1) = Except.ok RunOutcome.noStart := by
  rw [run_step3, ha, hz]
  simp

/-! ### Concrete inputs used by the witnesses -/

/-- Three-node weight matrix of the nearest-neighbour test case:
w(0,1)=1, w(0,2)=5, w(1,2)=2. -/
def w3 : ℕ → ℕ → ℚ
  | 0, 1 => 1
  | 0, 2 => 5
  | 1, 2 => 2
  | _, _ => 0

def coords3 : List (ℚ × ℚ) := [(0, 0), (0, 0), (0, 0)]

def c1coords : List (ℚ × ℚ) := [(0, 0), (1, 1)]

def c5coords : List (ℚ × ℚ) := [(0, 0), (3, 4)]

/-- A trivial node-indexed weight function used to instantiate the
planner claims. -/
def wzero : ℕ → ℕ → ℚ := fun _ _ => 0

/-- A trivial metric used to instantiate the driver claims. -/
def qdist : ℚ × ℚ → ℚ × ℚ → ℚ := fun _ _ => 0

/-- A body whose altitude falls quickly: it sets at the second grid
sample, `24/999` hours. -/
def bodyEarly : Body := ⟨"Vega", fun t => 1 - 100 * t, fun _ => 10⟩

/-- A body whose altitude falls more slowly: it sets at the third grid
sample, `48/999` hours. -/
def bodyLate : Body := ⟨"Deneb", fun t => 2 - 50 * t, fun _ => 20⟩

/-- A body below the horizon at the observation instant. -/
def bodyBelow : Body := ⟨"Altair", fun _ => -1, fun _ => 0⟩

theorem bodyEarly_time : body_time_to_set bodyEarly.altAt = some (24 / 999) := by
  refine (body_time_to_set_some_iff (by norm_num [bodyEarly]) _).mpr ⟨1, by norm_num, by norm_num, ?_, ?_⟩
  · show bodyEarly.altAt (24 * ((1 : ℕ) : ℚ) / 999) ≤ 0
    rw [bodyEarly]
    norm_num
  · intro j hj
    have hj0 : j = 0 := by omega
    subst hj0
    show 0 < bodyEarly.altAt (24 * ((0 : ℕ) : ℚ) / 999)
    rw [bodyEarly]
    norm_num

theorem bodyLate_time : body_time_to_set bodyLate.altAt = some (48 / 999) := by
  refine (body_time_to_set_some_iff (by norm_num [bodyLate]) _).mpr ⟨2, by norm_num, by norm_num, ?_, ?_⟩
  · show bodyLate.altAt (24 * ((2 : ℕ) : ℚ) / 999) ≤ 0
    rw [bodyLate]
    norm_num
  · intro j hj
    match j, hj with
    | 0, _ =>
      show 0 < bodyLate.altAt (24 * ((0 : ℕ) : ℚ) / 999)
      rw [bodyLate]
      norm_num
    | 1, _ =>
      show 0 < bodyLate.altAt (24 * ((1 : ℕ) : ℚ) / 999)
      rw [bodyLate]
      norm_num

theorem ffb_pair_times :
    (find_first_body [bodyEarly, bodyLate]).times_to_set = [some (24 / 999), some (48 / 999)] := by
  rw [(find_first_body_fields [bodyEarly, bodyLate]).1, List.map_cons, List.map_cons,
    List.map_nil, bodyEarly_time, bodyLate_time]

theorem ffb_pair_first : (find_first_body [bodyEarly, bodyLate]).first_index = ((0 : ℕ) : ℤ) := by
  refine (find_first_body_index_iff [bodyEarly, bodyLate] 0).mpr ⟨24 / 999, ?_, ?_, ?_⟩
  · rw [ffb_pair_times]
    rfl
  · intro j u hu
    rw [ffb_pair_times] at hu
    match j with
    | 0 =>
      simp only [List.getElem?_cons_zero] at hu
      injection hu with hu
      injection hu with hu
      rw [← hu]
    | 1 =>
      simp only [List.getElem?_cons_succ, List.getElem?_cons_zero] at hu
      injection hu with hu
      injection hu with hu
      rw [← hu]
      norm_num
    | j + 2 => simp at hu
  · intro j hj u _
    exact absurd hj (Nat.not_lt_zero j)

/-! ### The claims -/

/-- C1: for every distance graph built by `make_graph` on `n ≥ 1` nodes
and every in-range start index, the visiting order of the planner (the
greedy cycle with its final return to the start dropped, which is exactly
what the program reports) is a permutation of `0..n-1` of length exactly
`n`, containing every index exactly once, whose first element is the
start index; in particular for `n = 1` it is `[startIndex]`. -/
theorem C1_tour_validity {α : Type} [LinearOrder α] (coords : List (ℚ × ℚ))
    (dm : ℕ → ℕ → α) (s : ℕ) (_hn : 1 ≤ coords.length) (hs : s < coords.length) :
    ∃ p : List ℕ, greedy_tsp (make_graph coords dm) s = some p ∧
      (p.dropLast).Perm (List.range coords.length) ∧
      p.dropLast.length = coords.length ∧
      p.dropLast.Nodup ∧
      (∀ m : ℕ, m < coords.length → m ∈ p.dropLast) ∧
      p.dropLast.head? = some s ∧
      (coords.length = 1 → p.dropLast = [s]) := by
  rcases greedy_tsp_make_graph coords dm s hs with ⟨vs, hg, hperm⟩
  have hdrop : (s :: (vs ++ [s])).dropLast = s :: vs := by
    rw [show s :: (vs ++ [s]) = (s :: vs) ++ [s] from rfl, List.dropLast_concat]
  refine ⟨s :: (vs ++ [s]), hg, ?_, ?_, ?_, ?_, ?_, ?_⟩
  · rw [hdrop]
    exact hperm
  · rw [hdrop, hperm.length_eq, List.length_range]
  · rw [hdrop]
    exact hperm.nodup_iff.mpr (List.nodup_range _)
  · intro m hm
    rw [hdrop]
    exact hperm.mem_iff.mpr (List.mem_range.mpr hm)
  · rw [hdrop]
    rfl
  · intro h1
    rw [hdrop]
    have hlen : (s :: vs).length = 1 := by rw [hperm.length_eq, List.length_range, h1]
    have hvs : vs = [] := by
      simp only [List.length_cons] at hlen
      exact List.eq_nil_of_length_eq_zero (by omega)
    rw [hvs]

theorem C1_tour_validity_witness :
    ∃ p : List ℕ, greedy_tsp (make_graph c1coords wzero) 0 = some p ∧
      (p.dropLast).Perm (List.range c1coords.length) ∧
      p.dropLast.length = c1coords.length ∧
      p.dropLast.Nodup ∧
      (∀ m : ℕ, m < c1coords.length → m ∈ p.dropLast) ∧
      p.dropLast.head? = some 0 ∧
      (c1coords.length = 1 → p.dropLast = [0]) :=
  C1_tour_validity c1coords wzero 0 (by decide) (by decide)

/-- C2 (code bug): when a start override name is supplied and matches a
body, `run` skips `find_first_body` entirely, so none of the observation
columns (`Altitude`, `Azimuth`, `TimeToSet`, `Observable`) is ever
computed, and the very next step `self.df[["Altitude", "Azimuth"]]`
raises a `KeyError`: the run fails instead of planning.  Evaluated at the
concrete failing input (a single body named "Vega" with the override
"Vega"): step 2 resolves the index but leaves all four columns absent,
and the run aborts with the missing-column error. -/
theorem C2_override_skips_observation_state :
    run_step2 [bodyEarly] "Vega" =
      Except.ok (((0 : ℕ) : ℤ), ⟨["Vega"], none, none, none, none⟩) ∧
    run_with qdist [bodyEarly] "Vega" = Except.error (RunError.missingColumn "Altitude") :=
  ⟨rfl, rfl⟩

/-- C3: the estimator returns an infinite time-to-set whenever the
current altitude is `≤ 0`; when the current altitude is `> 0` it
evaluates the altitude at exactly 1000 evenly spaced instants
`24 * k / 999` hours (`k = 0 .. 999`) of the 24-hour window starting at
the observation instant, and returns the elapsed time in hours of the
chronologically first sample whose altitude is `≤ 0` (a rational number
of hours, not a sample index), or infinity when no sample in the window
is `≤ 0`. -/
theorem C3_estimator (altAt : ℚ → ℚ) :
    timeToSetSamples.length = 1000 ∧
    (∀ k : ℕ, k < 1000 → timeToSetSamples[k]? = some (24 * (k : ℚ) / 999)) ∧
    (altAt 0 ≤ 0 → body_time_to_set altAt = none) ∧
    (0 < altAt 0 → ∀ t : ℚ, body_time_to_set altAt = some t ↔
      ∃ k : ℕ, k < 1000 ∧ t = 24 * (k : ℚ) / 999 ∧ altAt (24 * (k : ℚ) / 999) ≤ 0 ∧
        ∀ j : ℕ, j < k → 0 < altAt (24 * (j : ℚ) / 999)) ∧
    (0 < altAt 0 → (body_time_to_set altAt = none ↔
      ∀ k : ℕ, k < 1000 → 0 < altAt (24 * (k : ℚ) / 999))) :=
  ⟨timeToSetSamples_length, fun _ hk => timeToSetSamples_getElem? hk,
    body_time_to_set_of_nonpos, fun h t => body_time_to_set_some_iff h t,
    fun h => body_time_to_set_none_iff h⟩

theorem C3_estimator_witness :
    body_time_to_set (fun t => 1 - 100 * t) = some (24 / 999) ∧
    body_time_to_set (fun _ => (-1 : ℚ)) = none := by
  constructor
  · refine ((C3_estimator (fun t => 1 - 100 * t)).2.2.2.1 (by norm_num) (24 / 999)).mpr
      ⟨1, by norm_num, by norm_num, ?_, ?_⟩
    · show (1 : ℚ) - 100 * (24 * ((1 : ℕ) : ℚ) / 999) ≤ 0
      norm_num
    · intro j hj
      have hj0 : j = 0 := by omega
      subst hj0
      show (0 : ℚ) < 1 - 100 * (24 * ((0 : ℕ) : ℚ) / 999)
      norm_num
  · exact (C3_estimator (fun _ => (-1 : ℚ))).2.2.1 (by norm_num)

/-- C4: without an override, the selector returns the natural index `i`
exactly when body `i` has a finite time-to-set that is a minimum of all
finite times-to-set and is strictly smaller than every earlier body's
finite time-to-set: the scan uses the strict `<`, so among equal minima
the earliest-indexed body is selected. -/
theorem C4_first_min_selection (bodies : List Body) (i : ℕ) :
    (find_first_body bodies).first_index = (i : ℤ) ↔
      ∃ t : ℚ, (find_first_body bodies).times_to_set[i]? = some (some t) ∧
        (∀ (j : ℕ) (u : ℚ),
          (find_first_body bodies).times_to_set[j]? = some (some u) → t ≤ u) ∧
        (∀ j : ℕ, j < i → ∀ u : ℚ,
          (find_first_body bodies).times_to_set[j]? = some (some u) → t < u) :=
  find_first_body_index_iff bodies i

theorem C4_first_min_selection_witness :
    ∃ t : ℚ, (find_first_body [bodyEarly, bodyLate]).times_to_set[0]? = some (some t) ∧
      (∀ (j : ℕ) (u : ℚ),
        (find_first_body [bodyEarly, bodyLate]).times_to_set[j]? = some (some u) → t ≤ u) ∧
      (∀ j : ℕ, j < 0 → ∀ u : ℚ,
        (find_first_body [bodyEarly, bodyLate]).times_to_set[j]? = some (some u) → t < u) :=
  (C4_first_min_selection [bodyEarly, bodyLate] 0).mp ffb_pair_first

/-- C5: the distance graph of the run is the complete undirected graph
on the `n` body indices: its node list is `0..n-1`, edges are inserted
only for `i < j` (hence no self-loops), adjacency is symmetric, and for
`i ≠ j` the weight is the Euclidean distance
`sqrt((alt_i - alt_j)^2 + (az_i - az_j)^2)` between the two bodies'
(altitude, azimuth) positions. -/
theorem C5_distance_graph (coords : List (ℚ × ℚ)) (i j : ℕ)
    (hi : i < coords.length) (hj : j < coords.length) :
    (make_graph coords (distance_matrix coords)).nodes = List.range coords.length ∧
    (∀ e ∈ (make_graph coords (distance_matrix coords)).edges, e.1 < e.2.1) ∧
    adjW (make_graph coords (distance_matrix coords)) i i = none ∧
    adjW (make_graph coords (distance_matrix coords)) i j
      = adjW (make_graph coords (distance_matrix coords)) j i ∧
    (i ≠ j → adjW (make_graph coords (distance_matrix coords)) i j =
      some (Real.sqrt
        ((((coords.getD i (0, 0)).1 : ℝ) - ((coords.getD j (0, 0)).1 : ℝ)) ^ 2
          + (((coords.getD i (0, 0)).2 : ℝ) - ((coords.getD j (0, 0)).2 : ℝ)) ^ 2))) := by
  refine ⟨rfl, ?_, adjW_self_make_graph _ _ i, adjW_comm _ i j, ?_⟩
  · rintro ⟨a, b, w⟩ he
    exact (mem_edges_make_graph.mp he).1
  · intro hij
    rw [adjW_make_graph hi hj hij]
    congr 1
    rw [distance_matrix, euclid_distance]
    rcases Nat.lt_or_ge i j with h | h
    · rw [Nat.min_def, Nat.max_def, if_pos (Nat.le_of_lt h), if_pos (Nat.le_of_lt h)]
    · have hji : j < i := Nat.lt_of_le_of_ne h (Ne.symm hij)
      rw [Nat.min_def, Nat.max_def, if_neg (by omega), if_neg (by omega)]
      congr 1
      ring

theorem C5_distance_graph_witness :
    (make_graph c5coords (distance_matrix c5coords)).nodes = List.range c5coords.length ∧
    (∀ e ∈ (make_graph c5coords (distance_matrix c5coords)).edges, e.1 < e.2.1) ∧
    adjW (make_graph c5coords (distance_matrix c5coords)) 0 0 = none ∧
    adjW (make_graph c5coords (distance_matrix c5coords)) 0 1
      = adjW (make_graph c5coords (distance_matrix c5coords)) 1 0 ∧
    ((0 : ℕ) ≠ 1 → adjW (make_graph c5coords (distance_matrix c5coords)) 0 1 =
      some (Real.sqrt
        ((((c5coords.getD 0 (0, 0)).1 : ℝ) - ((c5coords.getD 1 (0, 0)).1 : ℝ)) ^ 2
          + (((c5coords.getD 0 (0, 0)).2 : ℝ) - ((c5coords.getD 1 (0, 0)).2 : ℝ)) ^ 2))) :=
  C5_distance_graph c5coords 0 1 (by decide) (by decide)

/-- C6: if no body has a finite time-to-set and no override is given,
`find_first_body` returns the sentinel `-1` and the run produces no tour:
it reports the no-start outcome instead of planning. -/
theorem C6_no_start_no_tour {α : Type} [LinearOrder α] (dist : ℚ × ℚ → ℚ × ℚ → α)
    (bodies : List Body)
    (h : ∀ t ∈ (find_first_body bodies).times_to_set, t = none) :
    (find_first_body bodies).first_index = -1 ∧
      run_with dist bodies "" = Except.ok RunOutcome.noStart := by
  have hneg : (find_first_body bodies).first_index = -1 :=
    (find_first_body_neg_one_iff bodies).mpr h
  refine ⟨hneg, ?_⟩
  rw [run_with, run_step2_no_override, hneg]
  exact run_step3_no_start dist rfl rfl

theorem C6_no_start_no_tour_witness :
    run_with qdist [bodyBelow] "" = Except.ok RunOutcome.noStart :=
  (C6_no_start_no_tour qdist [bodyBelow] (by decide)).2

/-- C7: when the override start name is non-empty and matches no body by
exact string equality, the run fails with the not-found error naming the
unresolved body and no tour planning is attempted. -/
theorem C7_unresolved_override {α : Type} [LinearOrder α] (dist : ℚ × ℚ → ℚ × ℚ → α)
    (bodies : List Body) (name : String) (hne : name ≠ "")
    (h : ∀ b ∈ bodies, b.name ≠ name) :
    run_with dist bodies name = Except.error (RunError.notFound name) := by
  rw [run_with, run_step2_of_unmatched hne h]

theorem C7_unresolved_override_witness :
    run_with qdist [bodyBelow] "Sirius" = Except.error (RunError.notFound "Sirius") :=
  C7_unresolved_override qdist [bodyBelow] "Sirius" (by decide) (by decide)

/-- C8: on the 3-node complete graph with weights w(0,1)=1, w(0,2)=5,
w(1,2)=2 and start node 0, the planner produces the cycle [0,1,2,0] and
hence the reported tour [0,1,2]. -/
theorem C8_three_node_tour :
    greedy_tsp (make_graph coords3 w3) 0 = some [0, 1, 2, 0] ∧
    (greedy_tsp (make_graph coords3 w3) 0).map List.dropLast = some [0, 1, 2] := by
  decide

/-- C9: for every `n ≥ 1` the node sequence obtained from `greedy_tsp`
is a closed cycle of length `n + 1` beginning and ending at the start
index, and `show_results` skips exactly the final row of the reordered
frame, so the printed report lists each body exactly once with the start
body on the first line. -/
theorem C9_cycle_and_report {α : Type} [LinearOrder α] (coords : List (ℚ × ℚ))
    (dm : ℕ → ℕ → α) (s : ℕ) (f : ℕ → String)
    (_hn : 1 ≤ coords.length) (hs : s < coords.length) :
    ∃ p : List ℕ, greedy_tsp (make_graph coords dm) s = some p ∧
      p.length = coords.length + 1 ∧
      p.getLast? = some s ∧
      p.head? = some s ∧
      show_results (p.map f) = (p.dropLast).map f ∧
      (p.dropLast).Perm (List.range coords.length) ∧
      (p.dropLast).head? = some s := by
  rcases greedy_tsp_make_graph coords dm s hs with ⟨vs, hg, hperm⟩
  have hsplit : s :: (vs ++ [s]) = (s :: vs) ++ [s] := rfl
  have hdrop : (s :: (vs ++ [s])).dropLast = s :: vs := by
    rw [hsplit, List.dropLast_concat]
  have hlenvs : (s :: vs).length = coords.length := by
    rw [hperm.length_eq, List.length_range]
  refine ⟨s :: (vs ++ [s]), hg, ?_, ?_, rfl, ?_, ?_, ?_⟩
  · rw [hsplit, List.length_append, hlenvs]
    rfl
  · rw [hsplit]
    exact List.getLast?_concat _
  · rw [show_results_eq_dropLast]
    exact (List.map_dropLast f _).symm
  · rw [hdrop]
    exact hperm
  · rw [hdrop]
    rfl

theorem C9_cycle_and_report_witness :
    ∃ p : List ℕ, greedy_tsp (make_graph c1coords wzero) 1 = some p ∧
      p.length = c1coords.length + 1 ∧
      p.getLast? = some 1 ∧
      p.head? = some 1 ∧
      show_results (p.map (fun _ => "Star")) = (p.dropLast).map (fun _ => "Star") ∧
      (p.dropLast).Perm (List.range c1coords.length) ∧
      (p.dropLast).head? = some 1 :=
  C9_cycle_and_report c1coords wzero 1 (fun _ => "Star") (by decide) (by decide)

/-- C10: whenever `find_first_body` returns a non-sentinel index, the
body at that index has a finite time-to-set equal to the minimum over
all bodies' finite times-to-set, its `Observable` flag is true, and its
current altitude is strictly positive (only bodies of the
altitude-positive branch can become the candidate start). -/
theorem C10_selected_invariants (bodies : List Body) (i : ℕ)
    (h : (find_first_body bodies).first_index = (i : ℤ)) :
    ∃ (b : Body) (t : ℚ), bodies[i]? = some b ∧
      (find_first_body bodies).times_to_set[i]? = some (some t) ∧
      (∀ (j : ℕ) (u : ℚ),
        (find_first_body bodies).times_to_set[j]? = some (some u) → t ≤ u) ∧
      (find_first_body bodies).observables[i]? = some true ∧
      (find_first_body bodies).altitudes[i]? = some (b.altAt 0) ∧
      0 < b.altAt 0 := by
  rcases (find_first_body_index_iff bodies i).mp h with ⟨t, ht, hmin, _⟩
  have hts := (find_first_body_fields bodies).1
  rw [hts, List.getElem?_map] at ht
  rcases Option.map_eq_some'.mp ht with ⟨b, hb, hfb⟩
  have hpos : 0 < b.altAt 0 := by
    by_contra hneg
    rw [body_time_to_set_of_nonpos (not_lt.mp hneg)] at hfb
    cases hfb
  refine ⟨b, t, hb, ?_, hmin, ?_, ?_, hpos⟩
  · rw [hts, List.getElem?_map, hb, Option.map_some', hfb]
  · rw [(find_first_body_fields bodies).2.2.2, List.getElem?_map, hb, Option.map_some',
      is_observable, decide_eq_true hpos]
  · rw [(find_first_body_fields bodies).2.1, List.getElem?_map, hb, Option.map_some']

theorem C10_selected_invariants_witness :
    ∃ (b : Body) (t : ℚ), [bodyEarly, bodyLate][0]? = some b ∧
      (find_first_body [bodyEarly, bodyLate]).times_to_set[0]? = some (some t) ∧
      (∀ (j : ℕ) (u : ℚ),
        (find_first_body [bodyEarly, bodyLate]).times_to_set[j]? = some (some u) → t ≤ u) ∧
      (find_first_body [bodyEarly, bodyLate]).observables[0]? = some true ∧
      (find_first_body [bodyEarly, bodyLate]).altitudes[0]? = some (b.altAt 0) ∧
      0 < b.altAt 0 :=
  C10_selected_invariants [bodyEarly, bodyLate] 0 ffb_pair_first

end Celestsp
